import Mathlib

/-!
Verification of the scheduling core of `medicine_reminder_streamlit.py`
(medicine-reminder-app): the Medicine Store, Trigger Deriver / Job
Scheduler (`schedule_all_jobs`), Reminder Job (`make_reminder_job`),
Reconciliation Loop (`scheduler_watchdog`) and the UI mutation handlers.

The Python source is shallowly embedded: the JSON store is a `Store`
record, the APScheduler instance is a `SchedState` (`none` while the
global `scheduler` variable is still `None`), exceptions are explicit
`Option`/`Except` results, and the external effects a function consumes
(wall-clock time, `uuid4`, the TTS call) are passed as parameters.
-/

set_option autoImplicit false

namespace MedReminder

/-- A medicine record, as built by the add-medicine form handler:
`{'id', 'name', 'dose', 'times', 'start_date', 'end_date'}`.
`times` holds the raw `HH:MM` strings; dates are kept as the strings
`str(start_d)` / `str(end_d)` the source stores. -/
structure Medicine where
  id : String
  name : String
  dose : String
  times : List String
  start_date : String
  end_date : String
deriving DecidableEq, Repr

/-- A history entry as built by the reminder job closure. In the source a
successful TTS run stores `entry['audio'] = mp3_path` and no `'error'`
key; a failed one stores `entry['audio'] = None` and
`entry['error'] = str(e)`. Both keys are modelled as `Option`s. -/
structure HistoryEntry where
  id : String
  med_id : String
  med_name : String
  time : String
  message : String
  audio : Option String
  error : Option String
deriving DecidableEq, Repr

/-- The JSON data file `med_data.json`: `{"medicines": [...], "history": [...]}`. -/
structure Store where
  medicines : List Medicine
  history : List HistoryEntry
deriving DecidableEq, Repr

/-- `load_data()`: if the backing file does not exist, return
`{"medicines": [], "history": []}`; otherwise return the parsed file.
The file system is abstracted as `Option Store`: `none` means
`os.path.exists(DATA_FILE)` is false, `some s` an existing file whose
JSON (already parsed, `json.load` errors out of scope here) is `s`. -/
def load_data : Option Store → Store
  | none => { medicines := [], history := [] }
  | some s => s

/-- One scheduled APScheduler job: its id string, the `CronTrigger`'s
hour and minute, and the medicine dict captured by the
`make_reminder_job(med)` closure bound as the job function. -/
structure Job where
  jid : String
  hour : Nat
  minute : Nat
  med : Medicine
deriving DecidableEq, Repr

/-- The module-level scheduler: `none` while the global `scheduler`
variable is still `None`, `some jobs` once a `BackgroundScheduler`
exists, carrying its current job list. -/
abbrev SchedState := Option (List Job)

/-- The job list of the scheduler, empty when no scheduler exists. -/
def jobsOf : SchedState → List Job
  | none => []
  | some js => js

/-- `start_scheduler_if_needed()`: create (and start) a fresh
`BackgroundScheduler` if there is none yet; a no-op otherwise. -/
def start_scheduler_if_needed : SchedState → SchedState
  | none => some []
  | some js => some js

/-- `clear_jobs()`: `scheduler.remove_all_jobs()` when a scheduler
exists, no-op when the global is still `None`. -/
def clear_jobs : SchedState → SchedState
  | none => none
  | some _ => some []

/-- `t.split(':')` on the character list: splitting on each `':'`, so
`"a:b"` gives `["a","b"]`, `""` gives `[""]`, `":"` gives `["",""]`. -/
def splitColon : List Char → List (List Char)
  | [] => [[]]
  | c :: cs =>
    if c = ':' then [] :: splitColon cs
    else
      match splitColon cs with
      | [] => [[c]]
      | p :: ps => (c :: p) :: ps

/-- The value of a decimal digit character, `none` for anything else. -/
def digitVal? (c : Char) : Option Nat :=
  if c.isDigit then some (c.toNat - 48) else none

/-- Accumulating decimal parse of the remaining characters; `none` as
soon as a non-digit appears, mirroring `int` raising `ValueError`. -/
def parseIntAux (acc : Nat) : List Char → Option Nat
  | [] => some acc
  | c :: cs =>
    match digitVal? c with
    | none => none
    | some d => parseIntAux (acc * 10 + d) cs

/-- `int(field)` for a time field: a nonempty all-digit string parses to
its decimal value, anything else raises (`none`). (`int`'s tolerance for
surrounding whitespace, signs and underscores is not modelled; the form
handler strips the entered times.) -/
def parseIntDigits : List Char → Option Nat
  | [] => none
  | cs => parseIntAux 0 cs

/-- `hour, minute = map(int, t.split(':'))` followed by
`CronTrigger(hour=hour, minute=minute)`. `none` models the exception the
source raises on this `t`: a `ValueError` from `int`/unpacking when `t`
is not exactly two integer fields, or APScheduler's range error when the
hour is not in `0..23` or the minute not in `0..59`. -/
def parseTime (t : String) : Option (Nat × Nat) :=
  match (splitColon t.data).map parseIntDigits with
  | [some h, some m] => if h ≤ 23 ∧ m ≤ 59 then some (h, m) else none
  | _ => none

/-- `job_id = f"reminder-{med['id']}-{t}"`. -/
def jobId (medId t : String) : String :=
  "reminder-" ++ medId ++ "-" ++ t

/-- The exception escaping `schedule_all_jobs` when a time string is
malformed, identifying the offending medicine and string. -/
inductive ScheduleErr where
  | badTime (medId : String) (t : String)
deriving DecidableEq, Repr

/-- `scheduler.add_job(..., id=job_id, replace_existing=True)`: if a job
with the same id exists it is replaced in place, otherwise the new job
is appended. -/
def addJob (jobs : List Job) (j : Job) : List Job :=
  if jobs.any (fun k => k.jid == j.jid) then
    jobs.map (fun k => if k.jid == j.jid then j else k)
  else
    jobs ++ [j]

/-- The inner `for t in med.get("times", [])` loop of
`schedule_all_jobs`: parse each time and add the cron job for `med`;
the first malformed time raises, leaving the jobs added so far. -/
def addMedJobs (med : Medicine) : List String → List Job → List Job × Option ScheduleErr
  | [], jobs => (jobs, none)
  | t :: ts, jobs =>
    match parseTime t with
    | none => (jobs, some (ScheduleErr.badTime med.id t))
    | some (h, m) => addMedJobs med ts (addJob jobs ⟨jobId med.id t, h, m, med⟩)

/-- The outer `for med in data.get("medicines", [])` loop: process each
medicine in order, stopping at the first exception. -/
def scheduleMeds : List Medicine → List Job → List Job × Option ScheduleErr
  | [], jobs => (jobs, none)
  | med :: rest, jobs =>
    match addMedJobs med med.times jobs with
    | (jobs', none) => scheduleMeds rest jobs'
    | (jobs', some e) => (jobs', some e)

/-- `schedule_all_jobs()` applied to an already-loaded store: clear the
jobs, start the scheduler if needed, then add one daily cron job per
medicine per time. Returns the scheduler state as left by the run and
the exception it raises, if any (a malformed time aborts the run with
the partial job set installed). -/
def schedule_all_jobs (store : Store) (σ : SchedState) : SchedState × Option ScheduleErr :=
  let σ2 := start_scheduler_if_needed (clear_jobs σ)
  match scheduleMeds store.medicines (jobsOf σ2) with
  | (jobs, e) => (some jobs, e)

/-- Outcome of `synthesize_tts` (the Speak capability): the mp3 path on
success, or the exception's description `str(e)` on any failure. -/
inductive SpeakResult where
  | ok (path : String)
  | err (msg : String)
deriving DecidableEq, Repr

/-- The body of the closure returned by `make_reminder_job(med)`: build
the history entry, attempt TTS (any exception is caught: `audio` is set
to `None` and `error` to the description), append the entry to
`history`, save. `now` is `datetime.now().isoformat()`, `entryId` is
`str(uuid4())`, `speak` the TTS outcome; the Load-mutate-Save cycle is
the `Store → Store` transformation. -/
def job_func (med : Medicine) (now entryId : String) (speak : SpeakResult)
    (store : Store) : Store :=
  let entry : HistoryEntry :=
    { id := entryId
      med_id := med.id
      med_name := med.name
      time := now
      message := "Reminder: time to take your medicine " ++ med.name ++ ". Dose: " ++ med.dose
      audio := match speak with | .ok p => some p | .err _ => none
      error := match speak with | .ok _ => none | .err m => some m }
  { store with history := store.history ++ [entry] }

/-- The add-medicine form submit handler: append the new medicine record
to the store, save it, then call `schedule_all_jobs()` (which reloads
the just-saved store). The handler returns the saved store, the
scheduler state left by the reconciliation and the exception
`schedule_all_jobs` raises, if any. Form parsing (`uuid4`, time
splitting) is elided: `med` is the record the handler builds. -/
def add_handler (store : Store) (σ : SchedState) (med : Medicine) :
    Store × SchedState × Option ScheduleErr :=
  let newStore := { store with medicines := store.medicines ++ [med] }
  let r := schedule_all_jobs newStore σ
  (newStore, r.1, r.2)

/-- The delete-button handler:
`data['medicines'] = [m for m in data['medicines'] if m['id'] != med['id']]`,
then `save_data(data)` and `st.experimental_rerun()` — it does not call
`schedule_all_jobs`, so the scheduler state is returned unchanged. -/
def delete_handler (store : Store) (σ : SchedState) (medId : String) :
    Store × SchedState :=
  ({ store with medicines := store.medicines.filter (fun m => m.id != medId) }, σ)

/-- The "Force Run Next Reminder Now" button handler: if any medicines
exist, build the reminder job for `data['medicines'][0]` and run it
immediately; otherwise do nothing. -/
def force_run_handler (now entryId : String) (speak : SpeakResult)
    (store : Store) : Store :=
  match store.medicines with
  | [] => store
  | med :: _ => job_func med now entryId speak store

/-- One iteration of the `while True` body of `scheduler_watchdog`:
`try: schedule_all_jobs() except Exception: pass`. A store-load failure
(`.error`) raises before `clear_jobs` runs, so the blanket `except`
leaves the scheduler untouched; a `ScheduleErr` from
`schedule_all_jobs` is likewise swallowed, keeping the partial state the
run left behind. -/
def watchdogBody (loaded : Except String Store) (σ : SchedState) : SchedState :=
  match loaded with
  | .error _ => σ
  | .ok store => (schedule_all_jobs store σ).1

/-- `scheduler_watchdog()` unrolled: the scheduler state after `n`
sweeps, given the outcome `loads k` of `load_data()` at each sweep `k`.
`none` would model the loop having exited through an uncaught
exception; each iteration maps `watchdogBody` (whose blanket `except`
catches everything) over the previous state. -/
def scheduler_watchdog (loads : Nat → Except String Store) (σ : SchedState) :
    Nat → Option SchedState
  | 0 => some σ
  | n + 1 => (scheduler_watchdog loads σ n).map (watchdogBody (loads n))

/-- Sample medicine used in concrete instantiations. -/
def medA : Medicine :=
  ⟨"a", "Aspirin", "100mg", ["09:00"], "2026-01-01", "2026-01-31"⟩

/-- Second sample medicine used in concrete instantiations. -/
def medB : Medicine :=
  ⟨"b", "Ibuprofen", "200mg", ["21:00"], "2026-01-01", "2026-01-31"⟩

/-- Sample medicine whose single time string is malformed (hour 25). -/
def medBad : Medicine :=
  ⟨"bad", "Broken", "", ["25:99"], "2026-01-01", "2026-01-31"⟩

/-- Sample store holding `medA` then `medB` and an empty history. -/
def storeAB : Store := ⟨[medA, medB], []⟩

/-- The identity of a scheduled trigger: job id plus the cron trigger's
hour and minute — everything about a job except the captured medicine
record. -/
def jobKey (j : Job) : String × Nat × Nat := (j.jid, j.hour, j.minute)

/-- Agreement of two medicine records on `id` and `times` (their dates,
names and doses may differ arbitrarily). -/
def medsAgree (m1 m2 : Medicine) : Prop :=
  m1.id = m2.id ∧ m1.times = m2.times

/-- Sample medicine with two distinct times. -/
def medTwo : Medicine :=
  ⟨"c", "Vitamin D", "1 tablet", ["08:00", "20:00"], "2026-01-01", "2026-01-31"⟩

/-- `medA` with a different date range (same id and times). -/
def medA2 : Medicine :=
  ⟨"a", "Aspirin", "100mg", ["09:00"], "2025-06-01", "2025-07-01"⟩

/-- `medB` with a different date range (same id and times). -/
def medB2 : Medicine :=
  ⟨"b", "Ibuprofen", "200mg", ["21:00"], "2025-06-01", "2025-07-01"⟩

/-- `storeAB` with every medicine's date range changed. -/
def storeAB2 : Store := ⟨[medA2, medB2], []⟩

/-- `schedule_all_jobs` ignores the previous scheduler state: it clears
the jobs (or starts a fresh scheduler) before adding any, so its result
depends only on the store. -/
theorem schedule_all_jobs_state_independent (store : Store) (σ σ2 : SchedState) :
    schedule_all_jobs store σ = schedule_all_jobs store σ2 := by
  cases σ <;> cases σ2 <;> rfl

/-- Appending to a string on the left is cancellable. -/
theorem strapp_cancel_left (a t1 t2 : String) (h : a ++ t1 = a ++ t2) : t1 = t2 := by
  have hd : (a ++ t1).data = (a ++ t2).data := by rw [h]
  simp only [String.data_append] at hd
  exact String.ext (List.append_cancel_left hd)

/-- For a fixed medicine id, distinct time strings give distinct job ids. -/
theorem jobId_inj (i t1 t2 : String) (h : jobId i t1 = jobId i t2) : t1 = t2 :=
  strapp_cancel_left ("reminder-" ++ i ++ "-") t1 t2 h

/-- The inner time loop raises no exception when every time parses. -/
theorem addMedJobs_snd_none (med : Medicine) :
    ∀ (ts : List String) (jobs : List Job),
      (∀ t ∈ ts, (parseTime t).isSome) → (addMedJobs med ts jobs).2 = none := by
  intro ts
  induction ts with
  | nil => intro jobs _; rfl
  | cons t ts ih =>
    intro jobs h
    obtain ⟨v, hv⟩ := Option.isSome_iff_exists.mp (h t (List.mem_cons_self t ts))
    obtain ⟨hh, mm⟩ := v
    simp only [addMedJobs, hv]
    exact ih _ (fun u hu => h u (List.mem_cons_of_mem t hu))

/-- The medicine loop raises no exception when every time of every
medicine parses. -/
theorem scheduleMeds_snd_none :
    ∀ (meds : List Medicine) (jobs : List Job),
      (∀ m ∈ meds, ∀ t ∈ m.times, (parseTime t).isSome) →
      (scheduleMeds meds jobs).2 = none := by
  intro meds
  induction meds with
  | nil => intro jobs _; rfl
  | cons med rest ih =>
    intro jobs h
    have hA := addMedJobs_snd_none med med.times jobs (h med (List.mem_cons_self med rest))
    simp only [scheduleMeds]
    rcases hEq : addMedJobs med med.times jobs with ⟨jobs2, e⟩
    rw [hEq] at hA
    cases e with
    | none => exact ih jobs2 (fun m hm => h m (List.mem_cons_of_mem med hm))
    | some err => exact hA

/-- The medicine loop over a concatenation: run the first part; if it
raises, the rest never runs. -/
theorem scheduleMeds_append (a b : List Medicine) :
    ∀ jobs : List Job,
      scheduleMeds (a ++ b) jobs =
        match scheduleMeds a jobs with
        | (jobs2, none) => scheduleMeds b jobs2
        | (jobs2, some e) => (jobs2, some e) := by
  induction a with
  | nil => intro jobs; rfl
  | cons med rest ih =>
    intro jobs
    simp only [List.cons_append, scheduleMeds]
    rcases hA : addMedJobs med med.times jobs with ⟨jobs2, e⟩
    cases e with
    | none => exact ih jobs2
    | some err => rfl

/-- Adding a job whose id is fresh appends it. -/
theorem addJob_of_fresh (jobs : List Job) (j : Job)
    (h : ∀ k ∈ jobs, k.jid ≠ j.jid) : addJob jobs j = jobs ++ [j] := by
  have hany : jobs.any (fun k => k.jid == j.jid) = false := by
    rw [List.any_eq_false]
    intro k hk
    simpa using h k hk
  simp [addJob, hany]

/-- Running the time loop of one medicine over pairwise-distinct, valid
times whose job ids are fresh for the accumulated jobs: no exception,
the job-id list extends by exactly one id per time, and every new job
captures this medicine. -/
theorem addMedJobs_fresh (med : Medicine) :
    ∀ (ts : List String) (jobs : List Job),
      (∀ t ∈ ts, (parseTime t).isSome) →
      ts.Nodup →
      (∀ t ∈ ts, ∀ k ∈ jobs, k.jid ≠ jobId med.id t) →
      (addMedJobs med ts jobs).1.map Job.jid
          = jobs.map Job.jid ++ ts.map (jobId med.id)
        ∧ (addMedJobs med ts jobs).2 = none
        ∧ ∀ j ∈ (addMedJobs med ts jobs).1, j ∈ jobs ∨ j.med = med := by
  intro ts
  induction ts with
  | nil =>
    intro jobs _ _ _
    exact ⟨by simp [addMedJobs], rfl, fun j hj => Or.inl hj⟩
  | cons t ts ih =>
    intro jobs hval hnd hfresh
    obtain ⟨v, hv⟩ := Option.isSome_iff_exists.mp (hval t (List.mem_cons_self t ts))
    obtain ⟨hh, mm⟩ := v
    have hAdd : addJob jobs ⟨jobId med.id t, hh, mm, med⟩
        = jobs ++ [⟨jobId med.id t, hh, mm, med⟩] :=
      addJob_of_fresh _ _ (fun k hk => hfresh t (List.mem_cons_self t ts) k hk)
    simp only [addMedJobs, hv, hAdd]
    have htnot : t ∉ ts := (List.nodup_cons.mp hnd).1
    have hfresh2 : ∀ u ∈ ts, ∀ k ∈ jobs ++ [(⟨jobId med.id t, hh, mm, med⟩ : Job)],
        k.jid ≠ jobId med.id u := by
      intro u hu k hk
      rcases List.mem_append.mp hk with hk | hk
      · exact hfresh u (List.mem_cons_of_mem t hu) k hk
      · have hkj : k = ⟨jobId med.id t, hh, mm, med⟩ := by simpa using hk
        subst hkj
        intro hEq
        exact htnot (by rw [jobId_inj med.id t u hEq]; exact hu)
    obtain ⟨h1, h2, h3⟩ := ih (jobs ++ [⟨jobId med.id t, hh, mm, med⟩])
      (fun u hu => hval u (List.mem_cons_of_mem t hu))
      (List.nodup_cons.mp hnd).2 hfresh2
    refine ⟨?_, h2, ?_⟩
    · rw [h1]
      simp
    · intro j hj
      rcases h3 j hj with hj2 | hj2
      · rcases List.mem_append.mp hj2 with hm | hm
        · exact Or.inl hm
        · right
          have : j = ⟨jobId med.id t, hh, mm, med⟩ := by simpa using hm
          rw [this]
      · exact Or.inr hj2

/-- Membership after `add_job`: either an existing job (possibly the
replaced slot, which then equals the new job) or the new job. -/
theorem addJob_mem (jobs : List Job) (k j : Job) (h : j ∈ addJob jobs k) :
    j ∈ jobs ∨ j = k := by
  unfold addJob at h
  split at h
  · obtain ⟨x, hx, hxe⟩ := List.mem_map.mp h
    by_cases hxj : (x.jid == k.jid) = true
    · rw [if_pos hxj] at hxe
      exact Or.inr hxe.symm
    · rw [if_neg hxj] at hxe
      exact Or.inl (hxe ▸ hx)
  · rcases List.mem_append.mp h with h | h
    · exact Or.inl h
    · exact Or.inr (by simpa using h)

/-- Every job produced by one medicine's time loop is either an
already-accumulated job or captures that medicine. -/
theorem addMedJobs_med_mem (med : Medicine) :
    ∀ (ts : List String) (jobs : List Job) (j : Job),
      j ∈ (addMedJobs med ts jobs).1 → j ∈ jobs ∨ j.med = med := by
  intro ts
  induction ts with
  | nil => intro jobs j hj; exact Or.inl hj
  | cons t ts ih =>
    intro jobs j hj
    simp only [addMedJobs] at hj
    rcases hp : parseTime t with _ | ⟨hh, mm⟩
    · rw [hp] at hj
      exact Or.inl hj
    · rw [hp] at hj
      rcases ih _ j hj with h | h
      · rcases addJob_mem _ _ _ h with h2 | h2
        · exact Or.inl h2
        · right
          rw [h2]
      · exact Or.inr h

/-- Every job produced by the medicine loop is either an
already-accumulated job or captures one of the medicines. -/
theorem scheduleMeds_med_mem :
    ∀ (meds : List Medicine) (jobs : List Job) (j : Job),
      j ∈ (scheduleMeds meds jobs).1 → j ∈ jobs ∨ j.med ∈ meds := by
  intro meds
  induction meds with
  | nil => intro jobs j hj; exact Or.inl hj
  | cons med rest ih =>
    intro jobs j hj
    simp only [scheduleMeds] at hj
    rcases hA : addMedJobs med med.times jobs with ⟨jobs2, e⟩
    rw [hA] at hj
    cases e with
    | none =>
      rcases ih jobs2 j hj with h | h
      · rcases addMedJobs_med_mem med med.times jobs j (by rw [hA]; exact h) with h2 | h2
        · exact Or.inl h2
        · exact Or.inr (by rw [h2]; exact List.mem_cons_self med rest)
      · exact Or.inr (List.mem_cons_of_mem med h)
    | some err =>
      rcases addMedJobs_med_mem med med.times jobs j (by rw [hA]; exact hj) with h2 | h2
      · exact Or.inl h2
      · exact Or.inr (by rw [h2]; exact List.mem_cons_self med rest)

/-- Equal trigger-key lists give equal job-id lists. -/
theorem jid_map_of_key_map (jobs1 jobs2 : List Job)
    (h : jobs1.map jobKey = jobs2.map jobKey) :
    jobs1.map Job.jid = jobs2.map Job.jid := by
  have h2 := congrArg (List.map Prod.fst) h
  simpa [List.map_map, Function.comp, jobKey] using h2

/-- The `replace_existing` lookup depends only on the job-id lists. -/
theorem any_jid_congr (jobs1 jobs2 : List Job) (s : String)
    (h : jobs1.map Job.jid = jobs2.map Job.jid) :
    jobs1.any (fun k => k.jid == s) = jobs2.any (fun k => k.jid == s) := by
  have h1 : ∀ jobs : List Job,
      jobs.any (fun k => k.jid == s) = (jobs.map Job.jid).any (fun x => x == s) := by
    intro jobs
    induction jobs with
    | nil => rfl
    | cons a l ih => simp [ih]
  rw [h1, h1, h]

/-- In-place replacement preserves equality of trigger-key lists when
the replacing jobs have equal keys. -/
theorem replace_map_key (j1 j2 : Job) (hk : jobKey j1 = jobKey j2) :
    ∀ (jobs1 jobs2 : List Job), jobs1.map jobKey = jobs2.map jobKey →
      (jobs1.map (fun k => if k.jid == j1.jid then j1 else k)).map jobKey
        = (jobs2.map (fun k => if k.jid == j2.jid then j2 else k)).map jobKey := by
  intro jobs1
  induction jobs1 with
  | nil =>
    intro jobs2 h
    cases jobs2 with
    | nil => rfl
    | cons b m => simp at h
  | cons a l ih =>
    intro jobs2 h
    cases jobs2 with
    | nil => simp at h
    | cons b m =>
      simp only [List.map_cons, List.cons.injEq] at h
      obtain ⟨hab, hlm⟩ := h
      have hjid : a.jid = b.jid := congrArg Prod.fst hab
      have hj12 : j1.jid = j2.jid := congrArg Prod.fst hk
      simp only [List.map_cons, List.cons.injEq]
      refine ⟨?_, ih m hlm⟩
      by_cases hc : (a.jid == j1.jid) = true
      · rw [if_pos hc, if_pos (by rw [← hjid, ← hj12]; exact hc)]
        exact hk
      · rw [if_neg hc, if_neg (by rw [← hjid, ← hj12]; exact hc)]
        exact hab

/-- `add_job` preserves equality of trigger-key lists when the added
jobs have equal keys. -/
theorem addJob_key (jobs1 jobs2 : List Job) (j1 j2 : Job)
    (h : jobs1.map jobKey = jobs2.map jobKey) (hk : jobKey j1 = jobKey j2) :
    (addJob jobs1 j1).map jobKey = (addJob jobs2 j2).map jobKey := by
  have hj12 : j1.jid = j2.jid := congrArg Prod.fst hk
  have hany : jobs1.any (fun k => k.jid == j1.jid)
      = jobs2.any (fun k => k.jid == j2.jid) := by
    rw [hj12]
    exact any_jid_congr _ _ _ (jid_map_of_key_map _ _ h)
  unfold addJob
  rw [hany]
  by_cases hb : (jobs2.any (fun k => k.jid == j2.jid)) = true
  · rw [if_pos hb, if_pos hb]
    exact replace_map_key j1 j2 hk jobs1 jobs2 h
  · rw [if_neg hb, if_neg hb]
    simp [h, hk]

/-- The time loop of two medicines with the same id, run over the same
time list from accumulators with equal trigger-key lists, yields equal
trigger-key lists and the same exception outcome — whatever the
medicines' other fields (dates, name, dose). -/
theorem addMedJobs_key (med1 med2 : Medicine) (hid : med1.id = med2.id) :
    ∀ (ts : List String) (jobs1 jobs2 : List Job),
      jobs1.map jobKey = jobs2.map jobKey →
      (addMedJobs med1 ts jobs1).1.map jobKey
          = (addMedJobs med2 ts jobs2).1.map jobKey
        ∧ (addMedJobs med1 ts jobs1).2 = (addMedJobs med2 ts jobs2).2 := by
  intro ts
  induction ts with
  | nil => intro jobs1 jobs2 h; exact ⟨h, rfl⟩
  | cons t ts ih =>
    intro jobs1 jobs2 h
    simp only [addMedJobs]
    rcases hp : parseTime t with _ | ⟨hh, mm⟩
    · simpa using ⟨h, by rw [hid]⟩
    · apply ih
      apply addJob_key _ _ _ _ h
      show (jobId med1.id t, hh, mm) = (jobId med2.id t, hh, mm)
      rw [hid]

/-- The medicine loop over two stores whose medicines agree pairwise on
id and times produces equal trigger-key lists and the same exception
outcome. -/
theorem scheduleMeds_key :
    ∀ {meds1 meds2 : List Medicine}, List.Forall₂ medsAgree meds1 meds2 →
      ∀ (jobs1 jobs2 : List Job), jobs1.map jobKey = jobs2.map jobKey →
        (scheduleMeds meds1 jobs1).1.map jobKey
            = (scheduleMeds meds2 jobs2).1.map jobKey
          ∧ (scheduleMeds meds1 jobs1).2 = (scheduleMeds meds2 jobs2).2 := by
  intro meds1 meds2 hF
  induction hF with
  | nil => intro jobs1 jobs2 h; exact ⟨h, rfl⟩
  | @cons a b l1 l2 hab htl ih =>
    intro jobs1 jobs2 h
    obtain ⟨hid, htimes⟩ := hab
    simp only [scheduleMeds]
    rw [← htimes]
    obtain ⟨hmap, hsnd⟩ := addMedJobs_key a b hid a.times jobs1 jobs2 h
    rcases h1 : addMedJobs a a.times jobs1 with ⟨ja, ea⟩
    rcases h2 : addMedJobs b a.times jobs2 with ⟨jb, eb⟩
    rw [h1, h2] at hmap hsnd
    cases hsnd
    cases ea with
    | none => exact ih ja jb hmap
    | some e => exact ⟨hmap, rfl⟩

end MedReminder

namespace MedReminder

/-- C10: loading with no backing file yields the empty structure. -/
theorem c10_load_no_file_empty :
    load_data none = ({ medicines := [], history := [] } : Store) := rfl

/-- C2: when Speak fails with any error, firing the reminder job appends
exactly one history entry — with no audio reference and an `error` field
holding the failure's description — leaves the medicines untouched, and
(being a total function) does not raise to the caller. -/
theorem c2_speak_failure_appends_entry
    (med : Medicine) (now entryId msg : String) (store : Store) :
    ∃ e : HistoryEntry,
      (job_func med now entryId (SpeakResult.err msg) store).history
        = store.history ++ [e]
      ∧ e.audio = none
      ∧ e.error = some msg
      ∧ e.med_id = med.id
      ∧ (job_func med now entryId (SpeakResult.err msg) store).medicines
          = store.medicines := by
  refine ⟨_, rfl, rfl, rfl, rfl, rfl⟩

/-- C5: reconciliation is idempotent — running the derive-and-replace
pass twice in succession over the same store leaves the scheduler in
exactly the state (and with the exception outcome) of running it once. -/
theorem c5_reconciliation_idempotent (store : Store) (σ : SchedState) :
    schedule_all_jobs store (schedule_all_jobs store σ).1
      = schedule_all_jobs store σ :=
  schedule_all_jobs_state_independent store _ σ

/-- C3 counterexample: deleting the only medicine leaves the scheduler's
job set as it was (still holding the deleted medicine's trigger), which
differs from the reconciled job set of the post-write store — so
`DeleteMedicine` does not trigger reconciliation synchronously. -/
theorem c3_counterexample :
    (delete_handler ⟨[medA], []⟩ (some [⟨jobId "a" "09:00", 9, 0, medA⟩]) "a").2
      ≠ (schedule_all_jobs
          (delete_handler ⟨[medA], []⟩ (some [⟨jobId "a" "09:00", 9, 0, medA⟩]) "a").1
          (some [⟨jobId "a" "09:00", 9, 0, medA⟩])).1 := by
  decide

/-- C3 amended: only the AddMedicine handler triggers reconciliation
synchronously after its store write (its resulting scheduler state is
exactly the derive-and-replace pass over the post-write store); the
DeleteMedicine handler writes the store but returns the scheduler state
unchanged, leaving any stale trigger until the next periodic sweep. -/
theorem c3_amended_only_add_reconciles (store : Store) (σ : SchedState)
    (med : Medicine) (medId : String) :
    (add_handler store σ med).2.1
        = (schedule_all_jobs (add_handler store σ med).1 σ).1
      ∧ (delete_handler store σ medId).2 = σ :=
  ⟨rfl, rfl⟩

/-- C8: the watchdog loop never exits — for every sequence of sweep
outcomes (including store-load failures and stores whose derivation
raises) the loop reaches every iteration, each time applying the
caught-sweep body to the previous state and proceeding. -/
theorem c8_watchdog_never_exits (loads : Nat → Except String Store)
    (σ : SchedState) (n : Nat) :
    ∃ σn, scheduler_watchdog loads σ n = some σn
      ∧ scheduler_watchdog loads σ (n + 1)
          = some (watchdogBody (loads n) σn) := by
  induction n with
  | zero => exact ⟨σ, rfl, rfl⟩
  | succ n ih =>
    obtain ⟨σn, h1, h2⟩ := ih
    refine ⟨watchdogBody (loads n) σn, h2, ?_⟩
    have hstep : scheduler_watchdog loads σ (n + 1 + 1)
        = (scheduler_watchdog loads σ (n + 1)).map (watchdogBody (loads (n + 1))) := rfl
    rw [hstep, h2]
    rfl

/-- C9 counterexample: with two medicines in the store, the force-run
operation invoked "for" the second medicine's id `"b"` (which is
present) appends an entry for the first medicine `"a"` instead — the
handler takes no medicine id and always fires `medicines[0]`. -/
theorem c9_counterexample :
    "b" ∈ storeAB.medicines.map Medicine.id
      ∧ (force_run_handler "2026-10-12T09:00:00" "e0" (SpeakResult.ok "p.mp3")
          storeAB).history.map HistoryEntry.med_id = ["a"]
      ∧ ("a" : String) ≠ "b" := by
  decide

/-- C9 amended: the force-run operation fires one reminder immediately
for the first medicine of the store, reusing the Reminder Job logic: for
every store with a nonempty medicines list it appends exactly one
history entry, whose `med_id` is the first medicine's id. -/
theorem c9_amended_fires_first_medicine (now entryId : String)
    (speak : SpeakResult) (store : Store) (med : Medicine) (rest : List Medicine)
    (h : store.medicines = med :: rest) :
    ∃ e : HistoryEntry,
      (force_run_handler now entryId speak store).history
          = store.history ++ [e]
        ∧ e.med_id = med.id := by
  simp only [force_run_handler, h]
  exact ⟨_, rfl, rfl⟩

/-- C9 amended, witnessed at the concrete store `storeAB`. -/
theorem c9_amended_fires_first_medicine_witness :
    storeAB.medicines = medA :: [medB]
      ∧ ∃ e : HistoryEntry,
          (force_run_handler "t0" "e0" (SpeakResult.ok "p.mp3") storeAB).history
              = storeAB.history ++ [e]
            ∧ e.med_id = medA.id :=
  ⟨rfl, c9_amended_fires_first_medicine "t0" "e0" (SpeakResult.ok "p.mp3")
    storeAB medA [medB] rfl⟩

/-- C1 counterexample: a store holding the malformed `medBad` (time
`"25:99"`) followed by `medA`, whose times are all valid, derives an
empty job set — the other medicine's trigger is not produced, because
the malformed time aborts `schedule_all_jobs` with the exception rather
than being skipped with a warning. -/
theorem c1_counterexample :
    (∀ t ∈ medA.times, (parseTime t).isSome)
      ∧ parseTime "25:99" = none
      ∧ medBad.times = ["25:99"]
      ∧ schedule_all_jobs ⟨[medBad, medA], []⟩ none
          = (some [], some (ScheduleErr.badTime "bad" "25:99")) := by
  decide

/-- C1 amended: a malformed time-of-day string aborts trigger
derivation — `schedule_all_jobs` raises a `ScheduleErr` identifying the
offending medicine and string, the scheduler is left with exactly the
jobs of the medicines preceding the offending one, and no triggers are
derived for any medicine after it. -/
theorem c1_amended_malformed_aborts
    (pre : List Medicine) (mBad : Medicine) (tBad : String)
    (restTimes : List String) (post : List Medicine)
    (hist : List HistoryEntry) (σ : SchedState)
    (hpre : ∀ m ∈ pre, ∀ t ∈ m.times, (parseTime t).isSome)
    (hbad : mBad.times = tBad :: restTimes)
    (htb : parseTime tBad = none) :
    schedule_all_jobs ⟨pre ++ mBad :: post, hist⟩ σ
      = (some (scheduleMeds pre []).1, some (ScheduleErr.badTime mBad.id tBad)) := by
  rw [schedule_all_jobs_state_independent _ σ none]
  show (match scheduleMeds (pre ++ mBad :: post) [] with
        | (jobs, e) => ((some jobs : SchedState), e)) = _
  rw [scheduleMeds_append]
  rcases hP : scheduleMeds pre [] with ⟨jobsPre, e⟩
  have he : e = none := by
    have h2 := scheduleMeds_snd_none pre [] hpre
    rw [hP] at h2
    exact h2
  subst he
  simp only [scheduleMeds, hbad, addMedJobs, htb]

/-- C1 amended, witnessed: a valid medicine before the malformed one
keeps its trigger, the run raises, and the valid medicine after it gets
nothing. -/
theorem c1_amended_malformed_aborts_witness :
    (∀ m ∈ [medA], ∀ t ∈ m.times, (parseTime t).isSome)
      ∧ medBad.times = "25:99" :: []
      ∧ parseTime "25:99" = none
      ∧ schedule_all_jobs ⟨[medA] ++ medBad :: [medB], []⟩ none
          = (some (scheduleMeds [medA] []).1,
              some (ScheduleErr.badTime medBad.id "25:99")) :=
  ⟨by decide, rfl, by decide,
    c1_amended_malformed_aborts [medA] medBad "25:99" [] [medB] [] none
      (by decide) rfl (by decide)⟩

/-- C4: deriving triggers from a store holding the single medicine `M`,
whose `times` are pairwise distinct and all syntactically valid, raises
nothing and yields exactly one job per entry of `M.times`, keyed
`reminder-{M.id}-{t}` in order, each capturing `M`. -/
theorem c4_derive_singleton (M : Medicine) (hist : List HistoryEntry) (σ : SchedState)
    (hval : ∀ t ∈ M.times, (parseTime t).isSome)
    (hnd : M.times.Nodup) :
    (schedule_all_jobs ⟨[M], hist⟩ σ).2 = none
      ∧ (jobsOf (schedule_all_jobs ⟨[M], hist⟩ σ).1).map Job.jid
          = M.times.map (jobId M.id)
      ∧ (jobsOf (schedule_all_jobs ⟨[M], hist⟩ σ).1).length = M.times.length
      ∧ ∀ j ∈ jobsOf (schedule_all_jobs ⟨[M], hist⟩ σ).1, j.med = M := by
  rw [schedule_all_jobs_state_independent _ σ none]
  obtain ⟨hmap, hsnd, hmem⟩ :=
    addMedJobs_fresh M M.times [] hval hnd (by intro t _ k hk; simp at hk)
  rcases hA : addMedJobs M M.times [] with ⟨jobsM, e⟩
  rw [hA] at hmap hsnd hmem
  cases e with
  | some err => exact absurd hsnd (by simp)
  | none =>
    have hS : schedule_all_jobs ⟨[M], hist⟩ none = (some jobsM, none) := by
      show (match scheduleMeds [M] [] with
            | (jobs, e) => ((some jobs : SchedState), e)) = _
      simp only [scheduleMeds, hA]
    rw [hS]
    refine ⟨rfl, by simpa using hmap, ?_, ?_⟩
    · have hlen := congrArg List.length hmap
      simpa using hlen
    · intro j hj
      rcases hmem j hj with hm | hm
      · exact absurd hm (by simp)
      · exact hm

/-- C4, witnessed at a medicine with two distinct valid times. -/
theorem c4_derive_singleton_witness :
    (∀ t ∈ medTwo.times, (parseTime t).isSome)
      ∧ medTwo.times.Nodup
      ∧ ((schedule_all_jobs ⟨[medTwo], []⟩ none).2 = none
          ∧ (jobsOf (schedule_all_jobs ⟨[medTwo], []⟩ none).1).map Job.jid
              = medTwo.times.map (jobId medTwo.id)
          ∧ (jobsOf (schedule_all_jobs ⟨[medTwo], []⟩ none).1).length
              = medTwo.times.length
          ∧ ∀ j ∈ jobsOf (schedule_all_jobs ⟨[medTwo], []⟩ none).1, j.med = medTwo) :=
  ⟨by decide, by decide, c4_derive_singleton medTwo [] none (by decide) (by decide)⟩

/-- C6: deleting a medicine id present in the store removes exactly the
medicines bearing that id (everything else is kept, in order), leaves
the history sequence entirely unchanged, and the deleted id no longer
contributes to subsequent derivation: no derived job captures a
medicine with that id. -/
theorem c6_delete_frame (store : Store) (σ : SchedState) (medId : String)
    (hmem : medId ∈ store.medicines.map Medicine.id) :
    (delete_handler store σ medId).1.history = store.history
      ∧ (delete_handler store σ medId).1.medicines
          = store.medicines.filter (fun m => m.id != medId)
      ∧ (∀ m ∈ (delete_handler store σ medId).1.medicines, m.id ≠ medId)
      ∧ (∀ m ∈ store.medicines, m.id ≠ medId
          → m ∈ (delete_handler store σ medId).1.medicines)
      ∧ ∀ σ2 j,
          j ∈ jobsOf (schedule_all_jobs (delete_handler store σ medId).1 σ2).1
          → j.med.id ≠ medId := by
  refine ⟨rfl, rfl, ?_, ?_, ?_⟩
  · intro m hm
    have h2 := (List.mem_filter.mp hm).2
    simpa using h2
  · intro m hm h
    exact List.mem_filter.mpr ⟨hm, by simpa using h⟩
  · intro σ2 j hj
    rw [schedule_all_jobs_state_independent _ σ2 none] at hj
    rcases hS : scheduleMeds (delete_handler store σ medId).1.medicines []
      with ⟨jobsD, e⟩
    have hjj : j ∈ jobsD := by
      have hred : schedule_all_jobs (delete_handler store σ medId).1 none
          = (some jobsD, e) := by
        show (match scheduleMeds (delete_handler store σ medId).1.medicines [] with
              | (jobs, e) => ((some jobs : SchedState), e)) = _
        rw [hS]
      rw [hred] at hj
      exact hj
    rcases scheduleMeds_med_mem _ [] j (by rw [hS]; exact hjj) with h | h
    · exact absurd h (by simp)
    · have h2 := (List.mem_filter.mp h).2
      simpa using h2

/-- C6, witnessed: deleting id `"a"` from `storeAB`. -/
theorem c6_delete_frame_witness :
    "a" ∈ storeAB.medicines.map Medicine.id
      ∧ ((delete_handler storeAB none "a").1.history = storeAB.history
          ∧ (delete_handler storeAB none "a").1.medicines
              = storeAB.medicines.filter (fun m => m.id != "a")
          ∧ (∀ m ∈ (delete_handler storeAB none "a").1.medicines, m.id ≠ "a")
          ∧ (∀ m ∈ storeAB.medicines, m.id ≠ "a"
              → m ∈ (delete_handler storeAB none "a").1.medicines)
          ∧ ∀ σ2 j,
              j ∈ jobsOf (schedule_all_jobs (delete_handler storeAB none "a").1 σ2).1
              → j.med.id ≠ "a") :=
  ⟨by decide, c6_delete_frame storeAB none "a" (by decide)⟩

/-- C7: trigger derivation is independent of the date range — for any
two stores whose medicines agree pairwise on `id` and `times` (their
`start_date`/`end_date`, and any other field, may differ arbitrarily),
`schedule_all_jobs` derives the identical trigger set: the same job
keys (job id, cron hour, cron minute) in the same order, with the same
exception outcome. -/
theorem c7_dates_noninterference (s1 s2 : Store) (σ1 σ2 : SchedState)
    (h : List.Forall₂ medsAgree s1.medicines s2.medicines) :
    (jobsOf (schedule_all_jobs s1 σ1).1).map jobKey
        = (jobsOf (schedule_all_jobs s2 σ2).1).map jobKey
      ∧ (schedule_all_jobs s1 σ1).2 = (schedule_all_jobs s2 σ2).2 := by
  rw [schedule_all_jobs_state_independent s1 σ1 none,
    schedule_all_jobs_state_independent s2 σ2 none]
  obtain ⟨hmap, hsnd⟩ := scheduleMeds_key h [] [] rfl
  rcases h1 : scheduleMeds s1.medicines [] with ⟨ja, ea⟩
  rcases h2 : scheduleMeds s2.medicines [] with ⟨jb, eb⟩
  rw [h1, h2] at hmap hsnd
  have e1 : schedule_all_jobs s1 none = (some ja, ea) := by
    show (match scheduleMeds s1.medicines [] with
          | (jobs, e) => ((some jobs : SchedState), e)) = _
    rw [h1]
  have e2 : schedule_all_jobs s2 none = (some jb, eb) := by
    show (match scheduleMeds s2.medicines [] with
          | (jobs, e) => ((some jobs : SchedState), e)) = _
    rw [h2]
  rw [e1, e2]
  exact ⟨hmap, hsnd⟩

/-- C7, witnessed: `storeAB` versus the same medicines with every date
range changed. -/
theorem c7_dates_noninterference_witness :
    List.Forall₂ medsAgree storeAB.medicines storeAB2.medicines
      ∧ ((jobsOf (schedule_all_jobs storeAB none).1).map jobKey
            = (jobsOf (schedule_all_jobs storeAB2 (some [])).1).map jobKey
          ∧ (schedule_all_jobs storeAB none).2
              = (schedule_all_jobs storeAB2 (some [])).2) :=
  have hF : List.Forall₂ medsAgree storeAB.medicines storeAB2.medicines :=
    List.Forall₂.cons ⟨rfl, rfl⟩ (List.Forall₂.cons ⟨rfl, rfl⟩ List.Forall₂.nil)
  ⟨hF, c7_dates_noninterference storeAB storeAB2 none (some []) hF⟩

end MedReminder
